import Mathlib

/-!
Verification of the snowflake ID generator (`src/snowflake/snowflake.go`).

The Go code is embedded shallowly:

* Go `int64` values are modelled as `ℤ`; every operation that can overflow
  a 64-bit two's-complement word is wrapped with `wrap64` (reduction into
  `[-2^63, 2^63)`), mirroring Go's wrap-around semantics for `+`, `-` and
  `<<` on signed integers.  Bitwise `|`, `&`, `>>` on in-range values are
  `Int.lor`, `Int.land` and arithmetic shift (`>>>` on `ℤ`), which agree
  with two's-complement semantics and cannot overflow.
* The wall/monotonic clock is modelled by a trace `clock : ℕ → ℤ` giving the
  nanosecond reading that `time.Since(s.epoch)` would return at the n-th
  sampling performed by the generator.  `GetNow` converts it to milliseconds
  exactly as the source does: `time.Time.Sub` saturates at the `Duration`
  bounds (`sat64`) and Go's integer division truncates toward zero
  (`Int.tdiv`).  The `epoch` field of the Go struct is absorbed into this
  trace, so the struct model keeps only the mutable fields.
* `time.Sleep` has no observable effect other than the passage of time, so
  the slept durations (in milliseconds) are collected in a ghost list
  carried by the result.
* The unbounded busy-wait loop (`for now <= s.timestamp`) is given fuel; a
  result `outOfFuel` marks exhaustion of the fuel and corresponds to no
  terminating execution of the source.
* `panic` is modelled by the `fatal` result, carrying the panic argument
  (the reported rollback magnitude) and the state at the moment of the
  panic.
-/

namespace Snowflake

/-- Two's-complement wrap of an integer into the signed 64-bit range
`[-2^63, 2^63)`, i.e. reduction modulo `2^64` re-centred on zero. -/
def wrap64 (x : ℤ) : ℤ := (x + 2 ^ 63) % 2 ^ 64 - 2 ^ 63

/-- Saturation into `[-2^63, 2^63-1]`: `time.Time.Sub` returns the maximum
(resp. minimum) `Duration` when the difference overflows. -/
def sat64 (x : ℤ) : ℤ := max (-(2 ^ 63)) (min (2 ^ 63 - 1) x)

/-- Go `int64` subtraction (wraps on overflow). -/
def sub64 (a b : ℤ) : ℤ := wrap64 (a - b)

/-- Go `int64` addition (wraps on overflow). -/
def add64 (a b : ℤ) : ℤ := wrap64 (a + b)

/-- Go `int64` left shift: multiply by `2^n` and wrap modulo `2^64`. -/
def shl64 (x : ℤ) (n : ℕ) : ℤ := wrap64 (x * 2 ^ n)

/-- `EPOCH = int64(1577808000000)`: 2020-01-01 00:00:00 (+08:00) in Unix
milliseconds. -/
def EPOCH : ℤ := 1577808000000

/-- `BIT_TIMESTAMP = uint(41)`. -/
def BIT_TIMESTAMP : ℕ := 41

/-- `BIT_DATACENTER = uint(5)`. -/
def BIT_DATACENTER : ℕ := 5

/-- `BIT_WORKER = uint(5)`. -/
def BIT_WORKER : ℕ := 5

/-- `BIT_SEQUENCE = uint(12)`. -/
def BIT_SEQUENCE : ℕ := 12

/-- `MAX_TIMESTAMP = int64(-1 ^ (-1 << BIT_TIMESTAMP))` (Go `^` is xor,
`-1 << n` never overflows here, all constant arithmetic is exact). -/
def MAX_TIMESTAMP : ℤ := Int.xor (-1) ((-1) <<< (BIT_TIMESTAMP : ℤ))

/-- `MAX_DATACENTER_ID = int64(-1 ^ (-1 << BIT_DATACENTER))`. -/
def MAX_DATACENTER_ID : ℤ := Int.xor (-1) ((-1) <<< (BIT_DATACENTER : ℤ))

/-- `MAX_WORKER_ID = int64(-1 ^ (-1 << BIT_WORKER))`. -/
def MAX_WORKER_ID : ℤ := Int.xor (-1) ((-1) <<< (BIT_WORKER : ℤ))

/-- `MAX_SEQUENCE_ID = int64(-1 ^ (-1 << BIT_SEQUENCE))`. -/
def MAX_SEQUENCE_ID : ℤ := Int.xor (-1) ((-1) <<< (BIT_SEQUENCE : ℤ))

/-- `MAX_BACKWARD_MS = int64(3)`. -/
def MAX_BACKWARD_MS : ℤ := 3

/-- `SHIFT_TIMESTAMP = BIT_SEQUENCE + BIT_WORKER + BIT_DATACENTER`. -/
def SHIFT_TIMESTAMP : ℕ := BIT_SEQUENCE + BIT_WORKER + BIT_DATACENTER

/-- `SHIFT_DATACENTER = BIT_SEQUENCE + BIT_WORKER`. -/
def SHIFT_DATACENTER : ℕ := BIT_SEQUENCE + BIT_WORKER

/-- `SHIFT_WORKER = BIT_SEQUENCE`. -/
def SHIFT_WORKER : ℕ := BIT_SEQUENCE

/-- The mutable state of `type SnowFlake struct`.  The `sync.Mutex` and the
`epoch` anchor are not data: the mutex only serialises calls (calls are
modelled as atomic steps) and the epoch anchor is absorbed into the clock
trace consumed by `GetNow`. -/
structure SnowFlake where
  timestamp : ℤ
  datacenterId : ℤ
  workerId : ℤ
  sequence : ℤ
deriving DecidableEq

/-- `func New(datacenterId, machineId int64) (*SnowFlake, error)`
(lines 48-66).  `Except.error` models the `(nil, error)` return. -/
def New (datacenterId machineId : ℤ) : Except String SnowFlake :=
  if datacenterId < 0 ∨ datacenterId > MAX_DATACENTER_ID then
    .error ("datacenterId must be between 0 and " ++ toString (MAX_DATACENTER_ID - 1))
  else if machineId < 0 ∨ machineId > MAX_WORKER_ID then
    .error ("machineId must be between 0 and " ++ toString (MAX_WORKER_ID - 1))
  else
    .ok { timestamp := 0, datacenterId := datacenterId, workerId := machineId, sequence := 0 }

/-- `func (s *SnowFlake) GetNow() int64` (lines 130-133):
`time.Since(s.epoch).Nanoseconds() / 1000000`.  `clock i` is the exact
nanosecond difference at the i-th sampling; `time.Time.Sub` saturates it
into the `Duration` (int64) range and Go division truncates toward zero. -/
def GetNow (clock : ℕ → ℤ) (i : ℕ) : ℤ := Int.tdiv (sat64 (clock i)) 1000000

/-- The packing expression of lines 120-124:
`(now-EPOCH)<<SHIFT_TIMESTAMP | datacenterId<<SHIFT_DATACENTER |
workerId<<SHIFT_WORKER | sequence`. -/
def pack (now dc wk seq : ℤ) : ℤ :=
  Int.lor (Int.lor (Int.lor (shl64 (sub64 now EPOCH) SHIFT_TIMESTAMP)
    (shl64 dc SHIFT_DATACENTER)) (shl64 wk SHIFT_WORKER)) seq

/-- Modelled from the spec (claim C2): the packing formula as stated by the
specification, `(now << (seqBits+workerBits+dcBits)) | (datacenterId <<
(seqBits+workerBits)) | (workerId << seqBits) | sequence`, where `now` is
the value returned by `nowMillis()` itself (no further epoch subtraction).
Used only to compare the code's `pack` against the spec's formula. -/
def packSpec (now dc wk seq : ℤ) : ℤ :=
  Int.lor (Int.lor (Int.lor (shl64 now SHIFT_TIMESTAMP)
    (shl64 dc SHIFT_DATACENTER)) (shl64 wk SHIFT_WORKER)) seq

/-- Result of one `NextID` call.  `ok id s next sleeps` returns `id`, the
updated state `s`, the clock-trace cursor after the call and the list of
slept durations (milliseconds); `fatal` models the `panic` of line 96 with
its reported magnitude and the state at panic time; `outOfFuel` is the
model's marker for an execution of the line 105 spin loop longer than the
provided fuel (no corresponding terminating source execution). -/
inductive NextIDResult where
  | ok (id : ℤ) (s : SnowFlake) (next : ℕ) (sleeps : List ℤ)
  | fatal (backwardMs : ℤ) (s : SnowFlake) (sleeps : List ℤ)
  | outOfFuel (sleeps : List ℤ)
deriving DecidableEq

/-- The spin loop of lines 104-108: `for now <= s.timestamp { now = s.GetNow() }`,
with explicit fuel.  Returns the final `now` together with the next unread
cursor of the clock trace. -/
def spinWait (clock : ℕ → ℤ) (ts : ℤ) : ℕ → ℤ → ℕ → Option (ℤ × ℕ)
  | 0, now, i => if now ≤ ts then none else some (now, i)
  | fuel + 1, now, i =>
    if now ≤ ts then spinWait clock ts fuel (GetNow clock i) (i + 1) else some (now, i)

/-- Lines 101-124 of `NextID`: sequence management, update of
`s.timestamp`, and the final packing, starting from the (already
rollback-reconciled) value `now`. -/
def seqPhase (clock : ℕ → ℤ) (fuel : ℕ) (i : ℕ) (s : SnowFlake) (now : ℤ)
    (sleeps : List ℤ) : NextIDResult :=
  if s.timestamp = now then
    let seq := Int.land (add64 s.sequence 1) MAX_SEQUENCE_ID
    if seq = 0 then
      match spinWait clock s.timestamp fuel now i with
      | none => .outOfFuel sleeps
      | some (now2, i2) =>
        .ok (pack now2 s.datacenterId s.workerId seq)
          { s with timestamp := now2, sequence := seq } i2 sleeps
    else
      .ok (pack now s.datacenterId s.workerId seq)
        { s with timestamp := now, sequence := seq } i sleeps
  else
    .ok (pack now s.datacenterId s.workerId 0)
      { s with timestamp := now, sequence := 0 } i sleeps

/-- `func (s *SnowFlake) NextID() int64` (lines 71-125).  The call holds the
mutex throughout, so it is modelled as one atomic step from state `s`.
`i` is the clock-trace cursor at entry. -/
def NextID (clock : ℕ → ℤ) (fuel : ℕ) (i : ℕ) (s : SnowFlake) : NextIDResult :=
  let now := GetNow clock i
  if now < s.timestamp then
    let offset := sub64 s.timestamp now
    if offset ≤ MAX_BACKWARD_MS then
      let slept := shl64 offset 1
      let now2 := GetNow clock (i + 1)
      if now2 < s.timestamp then
        .fatal (sub64 s.timestamp now2) s [slept]
      else
        seqPhase clock fuel (i + 2) s now2 [slept]
    else
      .fatal (sub64 s.timestamp now) s []
  else
    seqPhase clock fuel (i + 1) s now []

/-- `func GetDeviceID(sid int64) (datacenterId, machineId int64)`
(lines 138-142).  Go `>>` on a signed operand is an arithmetic shift,
which is `>>>` on `ℤ`. -/
def GetDeviceID (sid : ℤ) : ℤ × ℤ :=
  (Int.land (sid >>> (SHIFT_DATACENTER : ℤ)) MAX_DATACENTER_ID,
   Int.land (sid >>> (SHIFT_WORKER : ℤ)) MAX_WORKER_ID)

/-- Slept durations recorded in a result. -/
def sleepsOf : NextIDResult → List ℤ
  | .ok _ _ _ sl => sl
  | .fatal _ _ sl => sl
  | .outOfFuel sl => sl

/-- Whether a result is the fatal (panicking) outcome. -/
def isFatal : NextIDResult → Bool
  | .fatal _ _ _ => true
  | _ => false

/-- Invariant satisfied by every state of a generator built by `New`:
the node identity is in range, the sequence counter is a 12-bit value, and
`timestamp` is either the initial `0` or a previous `GetNow` result (hence
at most `(2^63-1) / 10^6` milliseconds). -/
def ValidState (s : SnowFlake) : Prop :=
  0 ≤ s.datacenterId ∧ s.datacenterId ≤ 31 ∧ 0 ≤ s.workerId ∧ s.workerId ≤ 31 ∧
    0 ≤ s.sequence ∧ s.sequence ≤ 4095 ∧ 0 ≤ s.timestamp ∧ s.timestamp ≤ 9223372036854

/-- States reachable by one generator instance: the state produced by `New`
followed by any number of successful `NextID` calls (a fatal call stops the
generator and an out-of-fuel result is no terminating execution, so neither
yields a successor state). -/
inductive Reachable : SnowFlake → Prop
  | init (dc wk : ℤ) (s : SnowFlake) : New dc wk = .ok s → Reachable s
  | step (clock : ℕ → ℤ) (fuel i : ℕ) (id : ℤ) (s s2 : SnowFlake) (i2 : ℕ)
      (sl : List ℤ) : Reachable s → NextID clock fuel i s = .ok id s2 i2 sl → Reachable s2

/-- `ReachableFrom clock s t`: state `t` arises from state `s` by zero or
more successful `NextID` calls of the same instance (same time source
`clock`).  A fatal call terminates issuance (and leaves the state
unchanged), so only successful calls can separate two issued ids. -/
inductive ReachableFrom (clock : ℕ → ℤ) : SnowFlake → SnowFlake → Prop
  | refl (s : SnowFlake) : ReachableFrom clock s s
  | step (fuel i : ℕ) (id : ℤ) (s t t2 : SnowFlake) (i2 : ℕ) (sl : List ℤ) :
      ReachableFrom clock s t → NextID clock fuel i t = .ok id t2 i2 sl →
      ReachableFrom clock s t2

/-- A clock trace (nanoseconds) whose two successive millisecond readings
are `EPOCH + 2^41 - 1` and `EPOCH + 2^41`, i.e. the moment at which the
shifted timestamp crosses the 41-bit capacity. -/
def clockRollover : ℕ → ℤ :=
  fun j => if j = 0 then 3776831255551000000 else 3776831255552000000

/-! ### Values of the derived constants -/

theorem MAX_TIMESTAMP_eq : MAX_TIMESTAMP = 2199023255551 := by decide

theorem MAX_DATACENTER_ID_eq : MAX_DATACENTER_ID = 31 := by decide

theorem MAX_WORKER_ID_eq : MAX_WORKER_ID = 31 := by decide

theorem MAX_SEQUENCE_ID_eq : MAX_SEQUENCE_ID = 4095 := by decide

theorem SHIFT_TIMESTAMP_eq : SHIFT_TIMESTAMP = 22 := rfl

theorem SHIFT_DATACENTER_eq : SHIFT_DATACENTER = 17 := rfl

theorem SHIFT_WORKER_eq : SHIFT_WORKER = 12 := rfl

/-! ### Basic facts about the machine-integer helpers -/

theorem wrap64_eq_of (x : ℤ) (h1 : -(2 ^ 63) ≤ x) (h2 : x < 2 ^ 63) : wrap64 x = x := by
  unfold wrap64
  omega

theorem sat64_bounds (x : ℤ) : -(2 ^ 63) ≤ sat64 x ∧ sat64 x ≤ 2 ^ 63 - 1 := by
  unfold sat64
  constructor
  · exact le_max_left _ _
  · rcases max_cases (-(2 ^ 63) : ℤ) (min (2 ^ 63 - 1) x) with ⟨h, _⟩ | ⟨h, _⟩ <;> rw [h]
    · norm_num
    · exact min_le_left _ _

/-- Every value `GetNow` can return lies in `[-(2^63-1)/10^6, (2^63-1)/10^6]`,
because the `Duration` is saturated into the `int64` range before the
truncating division by `10^6`. -/
theorem GetNow_bounds (clock : ℕ → ℤ) (i : ℕ) :
    -9223372036854 ≤ GetNow clock i ∧ GetNow clock i ≤ 9223372036854 := by
  unfold GetNow
  obtain ⟨h1, h2⟩ := sat64_bounds (clock i)
  rcases le_or_lt 0 (sat64 (clock i)) with hpos | hneg
  · rw [Int.tdiv_eq_ediv hpos (by norm_num)]
    omega
  · have hneg2 : Int.tdiv (sat64 (clock i)) 1000000 = -(Int.tdiv (-sat64 (clock i)) 1000000) := by
      rw [← Int.neg_tdiv, neg_neg]
    rw [hneg2, Int.tdiv_eq_ediv (by omega) (by norm_num)]
    omega

/-- On a nonnegative in-range nanosecond reading, `GetNow` is plain floor
division by `10^6`. -/
theorem GetNow_of_nonneg (clock : ℕ → ℤ) (i : ℕ) (h0 : 0 ≤ clock i)
    (h1 : clock i ≤ 2 ^ 63 - 1) : GetNow clock i = clock i / 1000000 := by
  unfold GetNow
  have hs : sat64 (clock i) = clock i := by unfold sat64; omega
  rw [hs, Int.tdiv_eq_ediv h0 (by norm_num)]

/-! ### Bit-level bridge lemmas

Bitwise `or` of a multiple of `2^k` with a `k`-bit value is addition, and
masking with `2^k - 1` is `emod`, also on negative (two's-complement)
operands.  These justify rewriting the source's `|`, `&`, `>>` into plain
arithmetic. -/

theorem int_lor_natCast_natCast (m n : ℕ) :
    Int.lor (m : ℤ) (n : ℤ) = ((m ||| n : ℕ) : ℤ) := rfl

theorem int_lor_negSucc_natCast (m n : ℕ) :
    Int.lor (Int.negSucc m) (n : ℤ) = Int.negSucc (Nat.ldiff m n) := rfl

theorem int_land_natCast_natCast (m n : ℕ) :
    Int.land (m : ℤ) (n : ℤ) = ((m &&& n : ℕ) : ℤ) := rfl

theorem int_land_negSucc_natCast (m n : ℕ) :
    Int.land (Int.negSucc m) (n : ℤ) = ((Nat.ldiff n m : ℕ) : ℤ) := rfl

theorem nat_ldiff_mul_pow_pred (d b k : ℕ) (hb : b < 2 ^ k) :
    Nat.ldiff ((d + 1) * 2 ^ k - 1) b = (d + 1) * 2 ^ k - 1 - b := by
  have hpow : 0 < 2 ^ k := Nat.two_pow_pos k
  have h1 : (d + 1) * 2 ^ k - 1 = 2 ^ k * d + (2 ^ k - 1) := by
    rw [Nat.succ_mul, Nat.mul_comm]
    omega
  have h2 : (d + 1) * 2 ^ k - 1 - b = 2 ^ k * d + (2 ^ k - 1 - b) := by
    rw [Nat.succ_mul, Nat.mul_comm]
    omega
  rw [h2, h1]
  apply Nat.eq_of_testBit_eq
  intro i
  rw [Nat.testBit_ldiff, Nat.testBit_mul_pow_two_add _ (by omega) i,
    Nat.testBit_mul_pow_two_add _ (by omega : 2 ^ k - 1 - b < 2 ^ k) i]
  rcases Nat.lt_or_ge i k with hik | hik
  · have h3 : 2 ^ k - 1 - b = 2 ^ k - (b + 1) := by omega
    rw [if_pos hik, if_pos hik, h3, Nat.testBit_two_pow_sub_succ hb, Nat.testBit_two_pow_sub_one]
  · have hbi : Nat.testBit b i = false :=
      Nat.testBit_lt_two_pow (lt_of_lt_of_le hb (Nat.pow_le_pow_right (by norm_num) hik))
    rw [if_neg (by omega), if_neg (by omega), hbi]
    simp

theorem nat_ldiff_mask (x k : ℕ) : Nat.ldiff (2 ^ k - 1) x = 2 ^ k - 1 - x % 2 ^ k := by
  have hxm : x % 2 ^ k < 2 ^ k := Nat.mod_lt _ (Nat.two_pow_pos k)
  have h2 : 2 ^ k - 1 - x % 2 ^ k = 2 ^ k - (x % 2 ^ k + 1) := by omega
  apply Nat.eq_of_testBit_eq
  intro i
  rw [Nat.testBit_ldiff, h2, Nat.testBit_two_pow_sub_succ hxm, Nat.testBit_two_pow_sub_one,
    Nat.testBit_mod_two_pow]
  rcases Nat.lt_or_ge i k with hik | hik <;> simp [hik, Nat.not_lt.mpr]

/-- Bitwise `or` of an integer multiple of `2^k` (of either sign) with a
nonnegative value below `2^k` is their sum. -/
theorem int_lor_mul_pow (c b : ℤ) (k : ℕ) (hb0 : 0 ≤ b) (hb : b < 2 ^ k) :
    Int.lor (c * 2 ^ k) b = c * 2 ^ k + b := by
  obtain ⟨n, rfl⟩ := Int.eq_ofNat_of_zero_le hb0
  have hn : n < 2 ^ k := by exact_mod_cast hb
  cases c with
  | ofNat m =>
    have h1 : ((m : ℤ)) * 2 ^ k = ((2 ^ k * m : ℕ) : ℤ) := by
      push_cast
      ring
    rw [Int.ofNat_eq_natCast, h1, int_lor_natCast_natCast, ← Nat.mul_add_lt_is_or hn]
    push_cast
    ring
  | negSucc m =>
    have h1 : (Int.negSucc m) * 2 ^ k = Int.negSucc ((m + 1) * 2 ^ k - 1) := by
      have hc1 : 1 ≤ (m + 1) * 2 ^ k := Nat.one_le_iff_ne_zero.mpr (by positivity)
      rw [Int.negSucc_eq, Int.negSucc_eq]
      push_cast [hc1]
      ring
    rw [h1, int_lor_negSucc_natCast, nat_ldiff_mul_pow_pred m n k hn]
    have hc1 : 1 ≤ (m + 1) * 2 ^ k := Nat.one_le_iff_ne_zero.mpr (by positivity)
    have hc2 : n ≤ (m + 1) * 2 ^ k - 1 := by
      have h3 : 2 ^ k ≤ (m + 1) * 2 ^ k := Nat.le_mul_of_pos_left _ (by omega)
      omega
    rw [Int.negSucc_eq, Int.negSucc_eq]
    push_cast [hc1, hc2]
    ring

/-- Masking with the low-`k`-bits mask is `emod 2^k`, on either sign. -/
theorem int_land_mask (x : ℤ) (k : ℕ) : Int.land x (2 ^ k - 1) = x % 2 ^ k := by
  have hpow : (1 : ℕ) ≤ 2 ^ k := Nat.one_le_two_pow
  have hcast : ((2 : ℤ) ^ k - 1) = ((2 ^ k - 1 : ℕ) : ℤ) := by
    push_cast [hpow]
    ring
  have hpowcast : ((2 : ℤ) ^ k) = ((2 ^ k : ℕ) : ℤ) := by push_cast; ring
  cases x with
  | ofNat m =>
    rw [Int.ofNat_eq_natCast, hcast, int_land_natCast_natCast, Nat.and_pow_two_sub_one_eq_mod,
      hpowcast, Int.ofNat_mod_ofNat]
  | negSucc m =>
    rw [hcast, int_land_negSucc_natCast, nat_ldiff_mask]
    have hr : m % 2 ^ k < 2 ^ k := Nat.mod_lt _ (Nat.two_pow_pos k)
    have hqm := Nat.div_add_mod m (2 ^ k)
    have key : (Int.negSucc m) = ((2 ^ k - 1 - m % 2 ^ k : ℕ) : ℤ) +
        2 ^ k * (-(((m / 2 ^ k : ℕ) : ℤ) + 1)) := by
      rw [Int.negSucc_eq]
      have hcast2 : ((2 ^ k - 1 - m % 2 ^ k : ℕ) : ℤ) =
          (2 : ℤ) ^ k - 1 - ((m % 2 ^ k : ℕ) : ℤ) := by
        push_cast [hpow, (by omega : m % 2 ^ k ≤ 2 ^ k - 1)]
        ring
      rw [hcast2]
      have hqmZ : ((2 : ℤ) ^ k) * ((m / 2 ^ k : ℕ) : ℤ) + ((m % 2 ^ k : ℕ) : ℤ) = (m : ℤ) := by
        exact_mod_cast congrArg (fun t : ℕ => (t : ℤ)) hqm
      linarith
    rw [key, Int.add_mul_emod_self_left,
      Int.emod_eq_of_lt (by exact_mod_cast Nat.zero_le _)
        (by exact_mod_cast (by omega : 2 ^ k - 1 - m % 2 ^ k < 2 ^ k))]

/-- An arithmetic right shift by `n` is floor division by `2^n` (which is
`emod`-style division, `/` on `ℤ`). -/
theorem int_shiftRight_eq (x : ℤ) (n : ℕ) : x >>> (n : ℤ) = x / 2 ^ n := by
  cases x with
  | ofNat m =>
    rw [Int.ofNat_eq_natCast, Int.shiftRight_coe_nat, Nat.shiftRight_eq_div_pow,
      show ((2 : ℤ) ^ n) = ((2 ^ n : ℕ) : ℤ) from by push_cast; ring]
    rfl
  | negSucc m =>
    rw [Int.shiftRight_negSucc, Nat.shiftRight_eq_div_pow]
    have hr : m % 2 ^ n < 2 ^ n := Nat.mod_lt _ (Nat.two_pow_pos n)
    have hqm := Nat.div_add_mod m (2 ^ n)
    have key : (Int.negSucc m) = ((2 ^ n - 1 - m % 2 ^ n : ℕ) : ℤ) +
        2 ^ n * (-(((m / 2 ^ n : ℕ) : ℤ) + 1)) := by
      rw [Int.negSucc_eq]
      have hcast2 : ((2 ^ n - 1 - m % 2 ^ n : ℕ) : ℤ) =
          (2 : ℤ) ^ n - 1 - ((m % 2 ^ n : ℕ) : ℤ) := by
        push_cast [Nat.one_le_two_pow, (by omega : m % 2 ^ n ≤ 2 ^ n - 1)]
        ring
      rw [hcast2]
      have hqmZ : ((2 : ℤ) ^ n) * ((m / 2 ^ n : ℕ) : ℤ) + ((m % 2 ^ n : ℕ) : ℤ) = (m : ℤ) := by
        exact_mod_cast congrArg (fun t : ℕ => (t : ℤ)) hqm
      linarith
    rw [key, Int.add_mul_ediv_left _ _ (by positivity : (2 : ℤ) ^ n ≠ 0),
      Int.ediv_eq_zero_of_lt (by exact_mod_cast Nat.zero_le _)
        (by exact_mod_cast (by omega : 2 ^ n - 1 - m % 2 ^ n < 2 ^ n))]
    rw [Int.negSucc_eq]
    push_cast
    ring

theorem int_lor_zero (x : ℤ) : Int.lor x 0 = x := by
  cases x with
  | ofNat m =>
    rw [Int.ofNat_eq_natCast, show (0 : ℤ) = ((0 : ℕ) : ℤ) from rfl, int_lor_natCast_natCast]
    simp
  | negSucc m =>
    rw [show (0 : ℤ) = ((0 : ℕ) : ℤ) from rfl, int_lor_negSucc_natCast]
    congr 1
    apply Nat.eq_of_testBit_eq
    intro i
    rw [Nat.testBit_ldiff]
    simp

/-! ### Arithmetic characterisation of the packing and decoding -/

/-- When the shifted timestamp does not overflow (`now - EPOCH` fits in 41
bits) and the other fields are in range, the bit-packing of lines 120-124
is exact arithmetic. -/
theorem pack_eq (now dc wk seq : ℤ) (h1 : -(2 ^ 41) ≤ now - EPOCH) (h2 : now - EPOCH < 2 ^ 41)
    (hdc0 : 0 ≤ dc) (hdc : dc ≤ 31) (hwk0 : 0 ≤ wk) (hwk : wk ≤ 31)
    (hs0 : 0 ≤ seq) (hs : seq ≤ 4095) :
    pack now dc wk seq = (now - EPOCH) * 2 ^ 22 + dc * 2 ^ 17 + wk * 2 ^ 12 + seq := by
  unfold pack
  rw [SHIFT_TIMESTAMP_eq, SHIFT_DATACENTER_eq, SHIFT_WORKER_eq]
  have hsub : sub64 now EPOCH = now - EPOCH := by
    unfold sub64
    rw [wrap64_eq_of] <;> omega
  have hshl : shl64 (now - EPOCH) 22 = (now - EPOCH) * 2 ^ 22 := by
    unfold shl64
    rw [wrap64_eq_of] <;> omega
  have hdc17 : shl64 dc 17 = dc * 2 ^ 17 := by
    unfold shl64
    rw [wrap64_eq_of] <;> omega
  have hwk12 : shl64 wk 12 = wk * 2 ^ 12 := by
    unfold shl64
    rw [wrap64_eq_of] <;> omega
  rw [hsub, hshl, hdc17, hwk12,
    int_lor_mul_pow (now - EPOCH) (dc * 2 ^ 17) 22 (by omega) (by omega)]
  rw [show (now - EPOCH) * 2 ^ 22 + dc * 2 ^ 17 = ((now - EPOCH) * 2 ^ 5 + dc) * 2 ^ 17 from by
    ring]
  rw [int_lor_mul_pow _ (wk * 2 ^ 12) 17 (by omega) (by omega)]
  rw [show ((now - EPOCH) * 2 ^ 5 + dc) * 2 ^ 17 + wk * 2 ^ 12 =
      (((now - EPOCH) * 2 ^ 5 + dc) * 2 ^ 5 + wk) * 2 ^ 12 from by ring]
  rw [int_lor_mul_pow _ seq 12 hs0 (by omega)]

/-- Without any bound on `now`, the packed value is still `c * 2^22` plus
the low fields, for some integer `c` (the wrapped shifted timestamp). -/
theorem pack_decompose (now dc wk seq : ℤ) (hdc0 : 0 ≤ dc) (hdc : dc ≤ 31)
    (hwk0 : 0 ≤ wk) (hwk : wk ≤ 31) (hs0 : 0 ≤ seq) (hs : seq ≤ 4095) :
    ∃ c : ℤ, pack now dc wk seq = c * 2 ^ 22 + dc * 2 ^ 17 + wk * 2 ^ 12 + seq := by
  obtain ⟨c, hc⟩ : ∃ c : ℤ, shl64 (sub64 now EPOCH) 22 = c * 2 ^ 22 := by
    refine ⟨((sub64 now EPOCH * 2 ^ 22 + 2 ^ 63) % 2 ^ 64 - 2 ^ 63) / 2 ^ 22, ?_⟩
    unfold shl64 wrap64
    omega
  refine ⟨c, ?_⟩
  unfold pack
  rw [SHIFT_TIMESTAMP_eq, SHIFT_DATACENTER_eq, SHIFT_WORKER_eq]
  have hdc17 : shl64 dc 17 = dc * 2 ^ 17 := by
    unfold shl64
    rw [wrap64_eq_of] <;> omega
  have hwk12 : shl64 wk 12 = wk * 2 ^ 12 := by
    unfold shl64
    rw [wrap64_eq_of] <;> omega
  rw [hc, hdc17, hwk12, int_lor_mul_pow c (dc * 2 ^ 17) 22 (by omega) (by omega)]
  rw [show c * 2 ^ 22 + dc * 2 ^ 17 = (c * 2 ^ 5 + dc) * 2 ^ 17 from by ring]
  rw [int_lor_mul_pow _ (wk * 2 ^ 12) 17 (by omega) (by omega)]
  rw [show (c * 2 ^ 5 + dc) * 2 ^ 17 + wk * 2 ^ 12 = ((c * 2 ^ 5 + dc) * 2 ^ 5 + wk) * 2 ^ 12
    from by ring]
  rw [int_lor_mul_pow _ seq 12 hs0 (by omega)]

/-- Decoding any value of the shape produced by `pack` recovers the
datacenter and worker fields, for every value (wrapped or not) of the
timestamp part `c`. -/
theorem GetDeviceID_decompose (c dc wk seq : ℤ) (hdc0 : 0 ≤ dc) (hdc : dc ≤ 31)
    (hwk0 : 0 ≤ wk) (hwk : wk ≤ 31) (hs0 : 0 ≤ seq) (hs : seq ≤ 4095) :
    GetDeviceID (c * 2 ^ 22 + dc * 2 ^ 17 + wk * 2 ^ 12 + seq) = (dc, wk) := by
  unfold GetDeviceID
  rw [MAX_DATACENTER_ID_eq, MAX_WORKER_ID_eq]
  rw [show ((SHIFT_DATACENTER : ℕ) : ℤ) = ((17 : ℕ) : ℤ) from rfl,
    show ((SHIFT_WORKER : ℕ) : ℤ) = ((12 : ℕ) : ℤ) from rfl,
    int_shiftRight_eq _ 17, int_shiftRight_eq _ 12]
  have h17 : (c * 2 ^ 22 + dc * 2 ^ 17 + wk * 2 ^ 12 + seq) / 2 ^ 17 = c * 2 ^ 5 + dc := by
    rw [show c * 2 ^ 22 + dc * 2 ^ 17 + wk * 2 ^ 12 + seq =
        (wk * 2 ^ 12 + seq) + 2 ^ 17 * (c * 2 ^ 5 + dc) from by ring,
      Int.add_mul_ediv_left _ _ (by norm_num : (2 : ℤ) ^ 17 ≠ 0),
      Int.ediv_eq_zero_of_lt (by omega) (by omega)]
    ring
  have h12 : (c * 2 ^ 22 + dc * 2 ^ 17 + wk * 2 ^ 12 + seq) / 2 ^ 12 =
      c * 2 ^ 10 + dc * 2 ^ 5 + wk := by
    rw [show c * 2 ^ 22 + dc * 2 ^ 17 + wk * 2 ^ 12 + seq =
        seq + 2 ^ 12 * (c * 2 ^ 10 + dc * 2 ^ 5 + wk) from by ring,
      Int.add_mul_ediv_left _ _ (by norm_num : (2 : ℤ) ^ 12 ≠ 0),
      Int.ediv_eq_zero_of_lt (by omega) (by omega)]
    ring
  rw [h17, h12,
    show (31 : ℤ) = (2 : ℤ) ^ 5 - 1 from by norm_num,
    int_land_mask _ 5, int_land_mask _ 5]
  have e1 : (c * 2 ^ 5 + dc) % 2 ^ 5 = dc := by omega
  have e2 : (c * 2 ^ 10 + dc * 2 ^ 5 + wk) % 2 ^ 5 = wk := by omega
  rw [e1, e2]

/-! ### Characterisation of one `NextID` step -/

/-- The spin loop only ever exits with a value strictly above `ts`, and that
value is the entry value or a fresh clock sample. -/
theorem spinWait_some (clock : ℕ → ℤ) (ts : ℤ) (fuel : ℕ) (now : ℤ) (i : ℕ)
    (now2 : ℤ) (i2 : ℕ) (h : spinWait clock ts fuel now i = some (now2, i2)) :
    ts < now2 ∧ (now2 = now ∨ ∃ j, now2 = GetNow clock j) := by
  induction fuel generalizing now i with
  | zero =>
    unfold spinWait at h
    split at h
    · exact absurd h (by simp)
    · obtain ⟨rfl, rfl⟩ : now = now2 ∧ i = i2 := by simpa using h
      exact ⟨by omega, Or.inl rfl⟩
  | succ fuel ih =>
    unfold spinWait at h
    split at h
    · obtain ⟨h1, h2⟩ := ih _ _ h
      refine ⟨h1, Or.inr ?_⟩
      rcases h2 with h2 | ⟨j, hj⟩
      · exact ⟨i, h2⟩
      · exact ⟨j, hj⟩
    · obtain ⟨rfl, rfl⟩ : now = now2 ∧ i = i2 := by simpa using h
      exact ⟨by omega, Or.inl rfl⟩

/-- Full characterisation of the sequence-management phase (lines 101-124)
when it returns an id. -/
theorem seqPhase_ok_char (clock : ℕ → ℤ) (fuel i : ℕ) (s : SnowFlake) (now : ℤ)
    (sl : List ℤ) (id : ℤ) (s2 : SnowFlake) (i2 : ℕ) (sl2 : List ℤ)
    (hseq0 : 0 ≤ s.sequence) (hseq1 : s.sequence ≤ 4095)
    (h : seqPhase clock fuel i s now sl = .ok id s2 i2 sl2) :
    sl2 = sl ∧ s2.datacenterId = s.datacenterId ∧ s2.workerId = s.workerId ∧
    id = pack s2.timestamp s.datacenterId s.workerId s2.sequence ∧
    0 ≤ s2.sequence ∧ s2.sequence ≤ 4095 ∧
    (s.timestamp = now →
      s2.sequence = (s.sequence + 1) % 4096 ∧
      ((s.sequence + 1) % 4096 = 0 →
        s.timestamp < s2.timestamp ∧ ∃ j, s2.timestamp = GetNow clock j) ∧
      ((s.sequence + 1) % 4096 ≠ 0 → s2.timestamp = now)) ∧
    (s.timestamp ≠ now → s2.sequence = 0 ∧ s2.timestamp = now) ∧
    (s2.timestamp = now ∨ ∃ j, s2.timestamp = GetNow clock j) ∧
    (s.timestamp ≤ now → s.timestamp ≤ s2.timestamp) ∧
    (s2.timestamp = s.timestamp → s.timestamp = now → s2.sequence = s.sequence + 1) := by
  have hadd : add64 s.sequence 1 = s.sequence + 1 := by
    unfold add64
    rw [wrap64_eq_of] <;> omega
  have hland : Int.land (s.sequence + 1) MAX_SEQUENCE_ID = (s.sequence + 1) % 4096 := by
    rw [MAX_SEQUENCE_ID_eq, show (4095 : ℤ) = 2 ^ 12 - 1 from by norm_num, int_land_mask]
    norm_num
  unfold seqPhase at h
  rw [hadd, hland] at h
  by_cases hts : s.timestamp = now
  · rw [if_pos hts] at h
    by_cases hz : (s.sequence + 1) % 4096 = 0
    · rw [if_pos hz] at h
      rcases hsw : spinWait clock s.timestamp fuel now i with _ | ⟨now2, i2x⟩
      · rw [hsw] at h
        exact absurd h (by simp)
      · rw [hsw] at h
        obtain ⟨hspin1, hspin2⟩ := spinWait_some clock s.timestamp fuel now i now2 i2x hsw
        obtain ⟨rfl, rfl, rfl, rfl⟩ := by simpa using h
        have hfresh : ∃ j, now2 = GetNow clock j := by
          rcases hspin2 with h2 | h2
          · omega
          · exact h2
        refine ⟨rfl, rfl, rfl, by simp [hz], by simp [hz], by simp [hz], ?_, ?_, ?_, ?_, ?_⟩
        · exact fun _ => ⟨by simp [hz], fun _ => ⟨hspin1, hfresh⟩, fun hc => absurd hz hc⟩
        · exact fun hc => absurd hts hc
        · exact Or.inr hfresh
        · exact fun _ => le_of_lt hspin1
        · intro hc
          exact absurd hc (by simp; omega)
    · rw [if_neg hz] at h
      obtain ⟨rfl, rfl, rfl, rfl⟩ := by simpa using h
      have hmod : (s.sequence + 1) % 4096 = s.sequence + 1 := by omega
      refine ⟨rfl, rfl, rfl, rfl, by simp [hmod]; omega, by simp [hmod]; omega, ?_, ?_, ?_, ?_, ?_⟩
      · exact fun _ => ⟨rfl, fun hc => absurd hc hz, fun _ => rfl⟩
      · exact fun hc => absurd hts hc
      · exact Or.inl rfl
      · simp [hts]
      · intro _ _
        simp [hmod]
  · rw [if_neg hts] at h
    obtain ⟨rfl, rfl, rfl, rfl⟩ := by simpa using h
    refine ⟨rfl, rfl, rfl, rfl, le_refl 0, by norm_num, fun hc => absurd hc hts, ?_, Or.inl rfl,
      ?_, ?_⟩
    · exact fun _ => ⟨rfl, rfl⟩
    · exact fun hx => by simpa using hx
    · intro hc _
      have hc2 : now = s.timestamp := by simpa using hc
      exact absurd hc2.symm hts

/-- The sequence-management phase never panics: its results are `ok` or
`outOfFuel`. -/
theorem seqPhase_ne_fatal (clock : ℕ → ℤ) (fuel i : ℕ) (s : SnowFlake) (now : ℤ)
    (sl : List ℤ) (b : ℤ) (s2 : SnowFlake) (sl2 : List ℤ) :
    seqPhase clock fuel i s now sl ≠ .fatal b s2 sl2 := by
  intro h
  unfold seqPhase at h
  by_cases hts : s.timestamp = now
  · rw [if_pos hts] at h
    simp only [] at h
    by_cases hz : Int.land (add64 s.sequence 1) MAX_SEQUENCE_ID = 0
    · rw [if_pos hz] at h
      rcases hsw : spinWait clock s.timestamp fuel now i with _ | ⟨now2, i2x⟩ <;>
        rw [hsw] at h <;> simp at h
    · rw [if_neg hz] at h
      simp at h
  · rw [if_neg hts] at h
    simp at h

/-- A fatal (panicking) `NextID` call carries the entry state: both `panic`
sites (lines 94-97) are reached before any assignment to `s.sequence`
(line 103/111) or `s.timestamp` (line 115). -/
theorem NextID_fatal_state (clock : ℕ → ℤ) (fuel i : ℕ) (s : SnowFlake) (b : ℤ)
    (s2 : SnowFlake) (sl : List ℤ) (h : NextID clock fuel i s = .fatal b s2 sl) : s2 = s := by
  unfold NextID at h
  simp only [] at h
  split at h
  · split at h
    · split at h
      · injection h with h1 h2 h3
        exact h2.symm
      · exact absurd h (seqPhase_ne_fatal _ _ _ _ _ _ _ _ _)
    · injection h with h1 h2 h3
      exact h2.symm
  · exact absurd h (seqPhase_ne_fatal _ _ _ _ _ _ _ _ _)

/-- Characterisation of a successful `NextID` call: the node identity is
unchanged, the returned id is the packing of the updated state, the updated
sequence is in range, the recorded timestamp does not decrease and is a
fresh clock sample, and a call in the same millisecond increments the
sequence by exactly one. -/
theorem NextID_ok_char (clock : ℕ → ℤ) (fuel i : ℕ) (s : SnowFlake) (id : ℤ)
    (s2 : SnowFlake) (i2 : ℕ) (sl : List ℤ)
    (hseq0 : 0 ≤ s.sequence) (hseq1 : s.sequence ≤ 4095)
    (h : NextID clock fuel i s = .ok id s2 i2 sl) :
    s2.datacenterId = s.datacenterId ∧ s2.workerId = s.workerId ∧
    id = pack s2.timestamp s.datacenterId s.workerId s2.sequence ∧
    0 ≤ s2.sequence ∧ s2.sequence ≤ 4095 ∧
    s.timestamp ≤ s2.timestamp ∧
    (∃ j, s2.timestamp = GetNow clock j) ∧
    (s2.timestamp = s.timestamp → s2.sequence = s.sequence + 1) := by
  unfold NextID at h
  simp only [] at h
  split at h <;> rename_i hlt
  · -- clock rollback branch
    split at h <;> rename_i hoff
    · split at h <;> rename_i hlt2
      · exact absurd h (by simp)
      · push_neg at hlt2
        obtain ⟨-, hdc, hwk, hpack, hq0, hq1, -, hne, hor, hmono, hinc⟩ :=
          seqPhase_ok_char clock fuel (i + 2) s (GetNow clock (i + 1)) _ id s2 i2 sl
            hseq0 hseq1 h
        refine ⟨hdc, hwk, hpack, hq0, hq1, hmono hlt2, ?_, ?_⟩
        · rcases hor with hor | hor
          · exact ⟨i + 1, hor⟩
          · exact hor
        · intro hts
          by_cases hc : s.timestamp = GetNow clock (i + 1)
          · exact hinc hts hc
          · exact absurd (by rw [← hts]; exact (hne hc).2) hc
    · exact absurd h (by simp)
  · push_neg at hlt
    obtain ⟨-, hdc, hwk, hpack, hq0, hq1, -, hne, hor, hmono, hinc⟩ :=
      seqPhase_ok_char clock fuel (i + 1) s (GetNow clock i) _ id s2 i2 sl hseq0 hseq1 h
    refine ⟨hdc, hwk, hpack, hq0, hq1, hmono hlt, ?_, ?_⟩
    · rcases hor with hor | hor
      · exact ⟨i, hor⟩
      · exact hor
    · intro hts
      by_cases hc : s.timestamp = GetNow clock i
      · exact hinc hts hc
      · exact absurd (by rw [← hts]; exact (hne hc).2) hc

/-- `New` validates its arguments and initialises `timestamp = 0`,
`sequence = 0`. -/
theorem New_ok_char (dc wk : ℤ) (s : SnowFlake) (h : New dc wk = .ok s) :
    s.timestamp = 0 ∧ s.sequence = 0 ∧ s.datacenterId = dc ∧ s.workerId = wk ∧
    0 ≤ dc ∧ dc ≤ 31 ∧ 0 ≤ wk ∧ wk ≤ 31 := by
  unfold New at h
  rw [MAX_DATACENTER_ID_eq, MAX_WORKER_ID_eq] at h
  split at h <;> rename_i h1
  · exact absurd h (by simp)
  · split at h <;> rename_i h2
    · exact absurd h (by simp)
    · push_neg at h1 h2
      obtain rfl : s = ⟨0, dc, wk, 0⟩ := by simpa using h.symm
      exact ⟨rfl, rfl, rfl, rfl, h1.1, h1.2, h2.1, h2.2⟩

/-- A successful `NextID` call preserves the state invariant. -/
theorem NextID_ok_valid (clock : ℕ → ℤ) (fuel i : ℕ) (s : SnowFlake) (id : ℤ)
    (s2 : SnowFlake) (i2 : ℕ) (sl : List ℤ) (hv : ValidState s)
    (h : NextID clock fuel i s = .ok id s2 i2 sl) : ValidState s2 := by
  obtain ⟨hv1, hv2, hv3, hv4, hv5, hv6, hv7, hv8⟩ := hv
  obtain ⟨hdc, hwk, -, hq0, hq1, hle, ⟨j, hj⟩, -⟩ :=
    NextID_ok_char clock fuel i s id s2 i2 sl hv5 hv6 h
  obtain ⟨hg1, hg2⟩ := GetNow_bounds clock j
  exact ⟨hdc ▸ hv1, hdc ▸ hv2, hwk ▸ hv3, hwk ▸ hv4, hq0, hq1, by omega, by omega⟩

/-- Every reachable state of a generator instance satisfies the invariant. -/
theorem reachable_valid (s : SnowFlake) (h : Reachable s) : ValidState s := by
  induction h with
  | init dc wk s hnew =>
    obtain ⟨h1, h2, h3, h4, h5, h6, h7, h8⟩ := New_ok_char dc wk s hnew
    exact ⟨h3 ▸ h5, h3 ▸ h6, h4 ▸ h7, h4 ▸ h8, by omega, by omega, by omega, by omega⟩
  | step clock fuel i id s s2 i2 sl hr hstep ih =>
    exact NextID_ok_valid clock fuel i s id s2 i2 sl ih hstep

/-- Along any chain of successful calls of one instance, the node identity
is constant, the invariant is preserved, and the `(timestamp, sequence)`
pair never decreases lexicographically. -/
theorem reachableFrom_mono (clock : ℕ → ℤ) (s t : SnowFlake)
    (h : ReachableFrom clock s t) (hv : ValidState s) :
    ValidState t ∧ t.datacenterId = s.datacenterId ∧ t.workerId = s.workerId ∧
    (s.timestamp < t.timestamp ∨
      (s.timestamp = t.timestamp ∧ s.sequence ≤ t.sequence)) := by
  induction h with
  | refl s => exact ⟨hv, rfl, rfl, Or.inr ⟨rfl, le_refl _⟩⟩
  | step fuel i id s t t2 i2 sl hchain hstep ih =>
    obtain ⟨hvt, hdct, hwkt, hlex⟩ := ih hv
    have hvt2 := NextID_ok_valid clock fuel i t id t2 i2 sl hvt hstep
    obtain ⟨hvt1x, hvt2x, hvt3x, hvt4x, hvt5x, hvt6x, hvt7x, hvt8x⟩ := hvt
    obtain ⟨hdc, hwk, -, -, -, hle, -, hinc⟩ :=
      NextID_ok_char clock fuel i t id t2 i2 sl hvt5x hvt6x hstep
    refine ⟨hvt2, hdc.trans hdct, hwk.trans hwkt, ?_⟩
    rcases eq_or_lt_of_le hle with heq | hlt2
    · have hs := hinc heq.symm
      rcases hlex with hlex | ⟨hlex1, hlex2⟩
      · exact Or.inl (by omega)
      · exact Or.inr ⟨by omega, by omega⟩
    · rcases hlex with hlex | ⟨hlex1, hlex2⟩ <;> exact Or.inl (by omega)

/-- The sequence phase forwards the slept-durations list unchanged (no
further `time.Sleep` occurs after line 98). -/
theorem seqPhase_sleepsOf (clock : ℕ → ℤ) (fuel i : ℕ) (s : SnowFlake) (now : ℤ)
    (sl : List ℤ) : sleepsOf (seqPhase clock fuel i s now sl) = sl := by
  unfold seqPhase
  by_cases hts : s.timestamp = now
  · rw [if_pos hts]
    simp only []
    by_cases hz : Int.land (add64 s.sequence 1) MAX_SEQUENCE_ID = 0
    · rw [if_pos hz]
      rcases hsw : spinWait clock s.timestamp fuel now i with _ | ⟨now2, i2⟩ <;>
        simp [sleepsOf]
    · rw [if_neg hz]
      simp [sleepsOf]
  · rw [if_neg hts]
    simp [sleepsOf]

theorem seqPhase_isFatal (clock : ℕ → ℤ) (fuel i : ℕ) (s : SnowFlake) (now : ℤ)
    (sl : List ℤ) : isFatal (seqPhase clock fuel i s now sl) = false := by
  rcases hres : seqPhase clock fuel i s now sl with _ | ⟨b, s2, sl2⟩ | _
  · simp [isFatal]
  · exact absurd hres (seqPhase_ne_fatal clock fuel i s now sl b s2 sl2)
  · simp [isFatal]

/-- When the sampled clock is below `(EPOCH + 2^41)` milliseconds (in
nanoseconds), so is the value returned by `GetNow`. -/
theorem GetNow_window (clock : ℕ → ℤ) (j : ℕ)
    (h : clock j < 3776831255552000000) :
    GetNow clock j < 3776831255552 := by
  rcases le_or_lt 0 (clock j) with hc0 | hc0
  · rw [GetNow_of_nonneg clock j hc0 (by omega)]
    omega
  · have hb := GetNow_bounds clock j
    have hs : sat64 (clock j) < 0 := by
      unfold sat64
      rcases max_cases (-(2 ^ 63) : ℤ) (min (2 ^ 63 - 1) (clock j)) with ⟨h1, -⟩ | ⟨h1, -⟩ <;>
        rw [h1]
      · norm_num
      · rcases min_cases ((2 : ℤ) ^ 63 - 1) (clock j) with ⟨h2, h3⟩ | ⟨h2, -⟩ <;> omega
    have : Int.tdiv (sat64 (clock j)) 1000000 ≤ 0 := by
      have h4 : Int.tdiv (sat64 (clock j)) 1000000 =
          -(Int.tdiv (-sat64 (clock j)) 1000000) := by
        rw [← Int.neg_tdiv, neg_neg]
      have h5 : 0 ≤ Int.tdiv (-sat64 (clock j)) 1000000 :=
        Int.tdiv_nonneg (by omega) (by norm_num)
      omega
    unfold GetNow
    omega

/-! ### Claim theorems -/

/-- Claim C1 (code bug): the code violates the bound `0 ≤ id < 2^63`.  From
the freshly constructed generator `New 0 0` (a reachable state) with the
non-negative clock reading `0`, `NextID` returns the identifier
`pack 0 0 0 1`, which is negative: `GetNow` is already epoch-relative, and
the packing of lines 120-124 subtracts `EPOCH` a second time, so the
timestamp field holds `now - EPOCH < 0` for any clock reading below
`EPOCH` milliseconds (any real instant before about 2070). -/
theorem C1_bound_violated :
    New 0 0 = .ok ⟨0, 0, 0, 0⟩ ∧
    NextID (fun _ => 0) 1 0 ⟨0, 0, 0, 0⟩ = .ok (pack 0 0 0 1) ⟨0, 0, 0, 1⟩ 1 [] ∧
    pack 0 0 0 1 < 0 := by
  refine ⟨rfl, rfl, ?_⟩
  rw [pack_eq 0 0 0 1 (by norm_num [EPOCH]) (by norm_num [EPOCH]) (by norm_num) (by norm_num)
    (by norm_num) (by norm_num) (by norm_num) (by norm_num)]
  norm_num [EPOCH]

/-- Claim C2 (code bug): the value returned by `NextID` is not the spec's
packing of the final `nowMillis()` value.  With the initial generator and
`GetNow() = 1` (one millisecond after the epoch), the code returns
`pack 1 0 0 0 = (1 - EPOCH) * 2^22`, whereas the spec's formula
(`packSpec`) yields `1 <<< 22 = 2^22`: the code subtracts `EPOCH` from a
value that is already epoch-relative. -/
theorem C2_packing_mismatch :
    NextID (fun _ => 1000000) 1 0 ⟨0, 0, 0, 0⟩ = .ok (pack 1 0 0 0) ⟨1, 0, 0, 0⟩ 1 [] ∧
    packSpec 1 0 0 0 = 2 ^ 22 ∧
    pack 1 0 0 0 = (1 - EPOCH) * 2 ^ 22 ∧
    pack 1 0 0 0 ≠ packSpec 1 0 0 0 := by
  have hps : packSpec 1 0 0 0 = 2 ^ 22 := by decide
  have hp : pack 1 0 0 0 = (1 - EPOCH) * 2 ^ 22 := by
    rw [pack_eq 1 0 0 0 (by norm_num [EPOCH]) (by norm_num [EPOCH]) (by norm_num) (by norm_num)
      (by norm_num) (by norm_num) (by norm_num) (by norm_num)]
    ring
  refine ⟨rfl, hps, hp, ?_⟩
  rw [hp, hps]
  norm_num [EPOCH]

/-- Claim C7: `New` fails exactly when a parameter is outside `[0, 31]`; on
success the generator starts with `lastTimestamp = 0` and `sequence = 0`;
`New 32 0` and `New 0 32` fail while `New 31 31` succeeds. -/
theorem C7_construction (dc wk : ℤ) :
    ((∃ e, New dc wk = .error e) ↔ dc < 0 ∨ 31 < dc ∨ wk < 0 ∨ 31 < wk) ∧
    (∀ s, New dc wk = .ok s → s.timestamp = 0 ∧ s.sequence = 0 ∧
      s.datacenterId = dc ∧ s.workerId = wk) ∧
    (∃ e, New 32 0 = .error e) ∧ (∃ e, New 0 32 = .error e) ∧
    (∃ s, New 31 31 = .ok s) := by
  refine ⟨⟨?_, ?_⟩, ?_, ⟨_, rfl⟩, ⟨_, rfl⟩, ⟨_, rfl⟩⟩
  · rintro ⟨e, he⟩
    by_contra hc
    push_neg at hc
    obtain ⟨h1, h2, h3, h4⟩ := hc
    unfold New at he
    rw [MAX_DATACENTER_ID_eq, MAX_WORKER_ID_eq, if_neg (by omega), if_neg (by omega)] at he
    exact absurd he (by simp)
  · intro hc
    unfold New
    rw [MAX_DATACENTER_ID_eq, MAX_WORKER_ID_eq]
    by_cases h1 : dc < 0 ∨ dc > 31
    · rw [if_pos h1]
      exact ⟨_, rfl⟩
    · rw [if_neg h1, if_pos (by omega)]
      exact ⟨_, rfl⟩
  · intro s hs
    unfold New at hs
    split at hs
    · exact absurd hs (by simp)
    · split at hs
      · exact absurd hs (by simp)
      · obtain rfl : s = ⟨0, dc, wk, 0⟩ := by simpa using hs.symm
        exact ⟨rfl, rfl, rfl, rfl⟩

theorem C7_construction_witness :
    ((∃ e, New 5 7 = .error e) ↔ (5 : ℤ) < 0 ∨ 31 < (5 : ℤ) ∨ (7 : ℤ) < 0 ∨ 31 < (7 : ℤ)) ∧
    (∀ s, New 5 7 = .ok s → s.timestamp = 0 ∧ s.sequence = 0 ∧
      s.datacenterId = 5 ∧ s.workerId = 7) ∧
    (∃ e, New 32 0 = .error e) ∧ (∃ e, New 0 32 = .error e) ∧
    (∃ s, New 31 31 = .ok s) :=
  C7_construction 5 7

/-- Claim C8 (code bug): the out-of-range error message names the offending
field but states an upper bound of `30` (`MAX - 1`), although the accepted
range extends to `31` (the code itself accepts `New 31 0`): the message of
lines 50/53 prints `MAX_DATACENTER_ID-1` / `MAX_WORKER_ID-1` instead of
the bound used by the check. -/
theorem C8_error_message :
    New 32 0 = .error "datacenterId must be between 0 and 30" ∧
    New 0 32 = .error "machineId must be between 0 and 30" ∧
    New 31 0 = .ok ⟨0, 31, 0, 0⟩ :=
  ⟨rfl, rfl, rfl⟩

/-- Claim C4: when the first sample satisfies `now < lastTimestamp` (with
`offset = lastTimestamp - now`), the call sleeps `2 × offset` milliseconds
and re-samples exactly when `offset ≤ 3`, and it panics (issuing no id,
reporting the rollback magnitude) if and only if `offset > 3`, or
`offset ≤ 3` and the re-sampled `now` is still below `lastTimestamp`. -/
theorem C4_rollback_handling (clock : ℕ → ℤ) (fuel i : ℕ) (s : SnowFlake)
    (hts0 : 0 ≤ s.timestamp) (hts1 : s.timestamp ≤ 9223372036854)
    (hlt : GetNow clock i < s.timestamp) :
    (isFatal (NextID clock fuel i s) = true ↔
      3 < s.timestamp - GetNow clock i ∨
      (s.timestamp - GetNow clock i ≤ 3 ∧ GetNow clock (i + 1) < s.timestamp)) ∧
    (s.timestamp - GetNow clock i ≤ 3 →
      sleepsOf (NextID clock fuel i s) = [2 * (s.timestamp - GetNow clock i)]) ∧
    (3 < s.timestamp - GetNow clock i → sleepsOf (NextID clock fuel i s) = []) ∧
    (∀ b s2 sl, NextID clock fuel i s = .fatal b s2 sl →
      (3 < s.timestamp - GetNow clock i → b = s.timestamp - GetNow clock i) ∧
      (s.timestamp - GetNow clock i ≤ 3 → b = s.timestamp - GetNow clock (i + 1))) := by
  obtain ⟨hg1, hg2⟩ := GetNow_bounds clock i
  obtain ⟨hg3, hg4⟩ := GetNow_bounds clock (i + 1)
  have hsub : sub64 s.timestamp (GetNow clock i) = s.timestamp - GetNow clock i := by
    unfold sub64
    rw [wrap64_eq_of] <;> omega
  have hsub2 : sub64 s.timestamp (GetNow clock (i + 1)) = s.timestamp - GetNow clock (i + 1) := by
    unfold sub64
    rw [wrap64_eq_of] <;> omega
  have hslept : s.timestamp - GetNow clock i ≤ 3 →
      shl64 (sub64 s.timestamp (GetNow clock i)) 1 = 2 * (s.timestamp - GetNow clock i) := by
    intro hoff
    rw [hsub]
    unfold shl64
    rw [wrap64_eq_of] <;> omega
  by_cases hoff : s.timestamp - GetNow clock i ≤ 3
  · by_cases hlt2 : GetNow clock (i + 1) < s.timestamp
    · have hres : NextID clock fuel i s =
          .fatal (sub64 s.timestamp (GetNow clock (i + 1))) s
            [shl64 (sub64 s.timestamp (GetNow clock i)) 1] := by
        unfold NextID
        simp only []
        rw [if_pos hlt, if_pos (show sub64 s.timestamp (GetNow clock i) ≤ MAX_BACKWARD_MS from by
          rw [hsub]; exact hoff), if_pos hlt2]
      rw [hres]
      refine ⟨⟨fun _ => Or.inr ⟨hoff, hlt2⟩, fun _ => rfl⟩, ?_, fun hcon => absurd hcon (by omega),
        ?_⟩
      · intro _
        rw [show sleepsOf (NextIDResult.fatal (sub64 s.timestamp (GetNow clock (i + 1))) s
          [shl64 (sub64 s.timestamp (GetNow clock i)) 1]) =
          [shl64 (sub64 s.timestamp (GetNow clock i)) 1] from rfl, hslept hoff]
      · intro b s2 sl hfat
        injection hfat with h1 h2 h3
        exact ⟨fun hcon => absurd hcon (by omega), fun _ => by rw [← h1, hsub2]⟩
    · have hres : NextID clock fuel i s = seqPhase clock fuel (i + 2) s (GetNow clock (i + 1))
          [shl64 (sub64 s.timestamp (GetNow clock i)) 1] := by
        unfold NextID
        simp only []
        rw [if_pos hlt, if_pos (show sub64 s.timestamp (GetNow clock i) ≤ MAX_BACKWARD_MS from by
          rw [hsub]; exact hoff), if_neg hlt2]
      rw [hres]
      refine ⟨?_, ?_, fun hcon => absurd hcon (by omega), ?_⟩
      · rw [seqPhase_isFatal]
        constructor
        · intro habs
          exact absurd habs (by simp)
        · rintro (hcon | ⟨-, hcon⟩)
          · exact absurd hcon (by omega)
          · exact absurd hcon hlt2
      · intro _
        rw [seqPhase_sleepsOf, hslept hoff]
      · intro b s2 sl hfat
        exact absurd hfat (seqPhase_ne_fatal clock fuel (i + 2) s (GetNow clock (i + 1)) _ b s2 sl)
  · have hres : NextID clock fuel i s = .fatal (sub64 s.timestamp (GetNow clock i)) s [] := by
      unfold NextID
      simp only []
      rw [if_pos hlt, if_neg (show ¬sub64 s.timestamp (GetNow clock i) ≤ MAX_BACKWARD_MS from by
        rw [hsub]; exact hoff)]
    rw [hres]
    refine ⟨⟨fun _ => Or.inl (by omega), fun _ => rfl⟩, fun hcon => absurd hcon hoff,
      fun _ => rfl, ?_⟩
    intro b s2 sl hfat
    injection hfat with h1 h2 h3
    exact ⟨fun _ => by rw [← h1, hsub], fun hcon => absurd hcon hoff⟩

theorem C4_rollback_handling_witness :
    ((isFatal (NextID (fun _ => (0 : ℤ)) 1 0 ⟨10, 0, 0, 0⟩) = true ↔
      3 < (10 : ℤ) - GetNow (fun _ => (0 : ℤ)) 0 ∨
      ((10 : ℤ) - GetNow (fun _ => (0 : ℤ)) 0 ≤ 3 ∧
        GetNow (fun _ => (0 : ℤ)) (0 + 1) < 10)) ∧
    ((10 : ℤ) - GetNow (fun _ => (0 : ℤ)) 0 ≤ 3 →
      sleepsOf (NextID (fun _ => (0 : ℤ)) 1 0 ⟨10, 0, 0, 0⟩) =
        [2 * ((10 : ℤ) - GetNow (fun _ => (0 : ℤ)) 0)]) ∧
    (3 < (10 : ℤ) - GetNow (fun _ => (0 : ℤ)) 0 →
      sleepsOf (NextID (fun _ => (0 : ℤ)) 1 0 ⟨10, 0, 0, 0⟩) = []) ∧
    (∀ b s2 sl, NextID (fun _ => (0 : ℤ)) 1 0 ⟨10, 0, 0, 0⟩ = .fatal b s2 sl →
      (3 < (10 : ℤ) - GetNow (fun _ => (0 : ℤ)) 0 → b = 10 - GetNow (fun _ => (0 : ℤ)) 0) ∧
      ((10 : ℤ) - GetNow (fun _ => (0 : ℤ)) 0 ≤ 3 →
        b = 10 - GetNow (fun _ => (0 : ℤ)) (0 + 1)))) ∧
    isFatal (NextID (fun _ => (0 : ℤ)) 1 0 ⟨10, 0, 0, 0⟩) = true :=
  ⟨C4_rollback_handling (fun _ => 0) 1 0 ⟨10, 0, 0, 0⟩ (by norm_num) (by norm_num) (by decide),
    (C4_rollback_handling (fun _ => 0) 1 0 ⟨10, 0, 0, 0⟩ (by norm_num) (by norm_num)
      (by decide)).1.mpr (Or.inl (by decide))⟩

/-- Claim C5: in every successful `NextID` call, with `now` the definite
post-rollback clock sample of that call (the entry sample `GetNow clock i`
when no rollback was detected, the re-sample `GetNow clock (i+1)` after a
tolerated rollback): if `now` equals `lastTimestamp`, the sequence becomes
`(sequence + 1) mod 4096` and, when that increment wraps to `0`, the final
timestamp is a fresh sample strictly greater than `lastTimestamp` (the
spin loop re-samples until the clock advances), otherwise the final
timestamp is `now` itself; if `now` differs from `lastTimestamp`, the
sequence resets to `0` and the final timestamp is `now`; and the id packs
the final timestamp (the value stored into `lastTimestamp`) together with
the final sequence. -/
theorem C5_sequence_management (clock : ℕ → ℤ) (fuel i : ℕ) (s : SnowFlake) (id : ℤ)
    (s2 : SnowFlake) (i2 : ℕ) (sl : List ℤ) (hv : ValidState s)
    (h : NextID clock fuel i s = .ok id s2 i2 sl) :
    (¬GetNow clock i < s.timestamp →
      s.timestamp ≤ GetNow clock i ∧
      (s.timestamp = GetNow clock i →
        s2.sequence = (s.sequence + 1) % 4096 ∧
        ((s.sequence + 1) % 4096 = 0 →
          s.timestamp < s2.timestamp ∧ ∃ j2, s2.timestamp = GetNow clock j2) ∧
        ((s.sequence + 1) % 4096 ≠ 0 → s2.timestamp = GetNow clock i)) ∧
      (s.timestamp ≠ GetNow clock i → s2.sequence = 0 ∧ s2.timestamp = GetNow clock i) ∧
      id = pack s2.timestamp s.datacenterId s.workerId s2.sequence) ∧
    (GetNow clock i < s.timestamp →
      s.timestamp ≤ GetNow clock (i + 1) ∧
      (s.timestamp = GetNow clock (i + 1) →
        s2.sequence = (s.sequence + 1) % 4096 ∧
        ((s.sequence + 1) % 4096 = 0 →
          s.timestamp < s2.timestamp ∧ ∃ j2, s2.timestamp = GetNow clock j2) ∧
        ((s.sequence + 1) % 4096 ≠ 0 → s2.timestamp = GetNow clock (i + 1))) ∧
      (s.timestamp ≠ GetNow clock (i + 1) →
        s2.sequence = 0 ∧ s2.timestamp = GetNow clock (i + 1)) ∧
      id = pack s2.timestamp s.datacenterId s.workerId s2.sequence) := by
  obtain ⟨hv1, hv2, hv3, hv4, hv5, hv6, hv7, hv8⟩ := hv
  unfold NextID at h
  simp only [] at h
  split at h <;> rename_i hlt
  · split at h <;> rename_i hoff
    · split at h <;> rename_i hlt2
      · exact absurd h (by simp)
      · push_neg at hlt2
        obtain ⟨-, -, -, hpack, -, -, hsame, hne, -, -, -⟩ :=
          seqPhase_ok_char clock fuel (i + 2) s (GetNow clock (i + 1)) _ id s2 i2 sl hv5 hv6 h
        exact ⟨fun hcon => absurd hlt hcon, fun _ => ⟨hlt2, hsame, hne, hpack⟩⟩
    · exact absurd h (by simp)
  · push_neg at hlt
    obtain ⟨-, -, -, hpack, -, -, hsame, hne, -, -, -⟩ :=
      seqPhase_ok_char clock fuel (i + 1) s (GetNow clock i) _ id s2 i2 sl hv5 hv6 h
    exact ⟨fun _ => ⟨hlt, hsame, hne, hpack⟩, fun hcon => absurd hcon (by omega)⟩

theorem C5_sequence_management_witness :
    (¬GetNow (fun _ => (0 : ℤ)) 0 < (0 : ℤ) →
      (0 : ℤ) ≤ GetNow (fun _ => (0 : ℤ)) 0 ∧
      ((0 : ℤ) = GetNow (fun _ => (0 : ℤ)) 0 →
        (1 : ℤ) = ((0 : ℤ) + 1) % 4096 ∧
        (((0 : ℤ) + 1) % 4096 = 0 →
          (0 : ℤ) < 0 ∧ ∃ j2, (0 : ℤ) = GetNow (fun _ => (0 : ℤ)) j2) ∧
        (((0 : ℤ) + 1) % 4096 ≠ 0 → (0 : ℤ) = GetNow (fun _ => (0 : ℤ)) 0)) ∧
      ((0 : ℤ) ≠ GetNow (fun _ => (0 : ℤ)) 0 →
        (1 : ℤ) = 0 ∧ (0 : ℤ) = GetNow (fun _ => (0 : ℤ)) 0) ∧
      pack 0 0 0 1 = pack 0 0 0 1) ∧
    (GetNow (fun _ => (0 : ℤ)) 0 < (0 : ℤ) →
      (0 : ℤ) ≤ GetNow (fun _ => (0 : ℤ)) (0 + 1) ∧
      ((0 : ℤ) = GetNow (fun _ => (0 : ℤ)) (0 + 1) →
        (1 : ℤ) = ((0 : ℤ) + 1) % 4096 ∧
        (((0 : ℤ) + 1) % 4096 = 0 →
          (0 : ℤ) < 0 ∧ ∃ j2, (0 : ℤ) = GetNow (fun _ => (0 : ℤ)) j2) ∧
        (((0 : ℤ) + 1) % 4096 ≠ 0 → (0 : ℤ) = GetNow (fun _ => (0 : ℤ)) (0 + 1))) ∧
      ((0 : ℤ) ≠ GetNow (fun _ => (0 : ℤ)) (0 + 1) →
        (1 : ℤ) = 0 ∧ (0 : ℤ) = GetNow (fun _ => (0 : ℤ)) (0 + 1)) ∧
      pack 0 0 0 1 = pack 0 0 0 1) :=
  C5_sequence_management (fun _ => 0) 1 0 ⟨0, 0, 0, 0⟩ (pack 0 0 0 1) ⟨0, 0, 0, 1⟩ 1 []
    ⟨le_refl 0, by norm_num, le_refl 0, by norm_num, le_refl 0, by norm_num, le_refl 0,
      by norm_num⟩ rfl

/-- Claim C6: decoding the identifier returned by any successful `NextID`
call from any reachable generator state recovers exactly the generator's
`(datacenterId, workerId)` pair (each in `[0, 31]` by construction). -/
theorem C6_device_roundtrip (clock : ℕ → ℤ) (fuel i : ℕ) (s : SnowFlake) (id : ℤ)
    (s2 : SnowFlake) (i2 : ℕ) (sl : List ℤ) (hr : Reachable s)
    (h : NextID clock fuel i s = .ok id s2 i2 sl) :
    GetDeviceID id = (s.datacenterId, s.workerId) := by
  obtain ⟨hv1, hv2, hv3, hv4, hv5, hv6, hv7, hv8⟩ := reachable_valid s hr
  obtain ⟨-, -, hpack, hq0, hq1, -, -, -⟩ :=
    NextID_ok_char clock fuel i s id s2 i2 sl hv5 hv6 h
  obtain ⟨c, hc⟩ := pack_decompose s2.timestamp s.datacenterId s.workerId s2.sequence
    hv1 hv2 hv3 hv4 hq0 hq1
  rw [hpack, hc]
  exact GetDeviceID_decompose c s.datacenterId s.workerId s2.sequence hv1 hv2 hv3 hv4 hq0 hq1

theorem C6_device_roundtrip_witness :
    New 3 5 = .ok ⟨0, 3, 5, 0⟩ ∧
    NextID (fun _ => (0 : ℤ)) 1 0 ⟨0, 3, 5, 0⟩ = .ok (pack 0 3 5 1) ⟨0, 3, 5, 1⟩ 1 [] ∧
    GetDeviceID (pack 0 3 5 1) = (3, 5) :=
  ⟨rfl, rfl,
    C6_device_roundtrip (fun _ => 0) 1 0 ⟨0, 3, 5, 0⟩ (pack 0 3 5 1) ⟨0, 3, 5, 1⟩ 1 []
      (Reachable.init 3 5 ⟨0, 3, 5, 0⟩ rfl) rfl⟩

/-- Claim C10: a fatal (panicking) `NextID` call leaves the generator state
exactly as it was: both panic sites precede every assignment to
`s.sequence` and `s.timestamp`. -/
theorem C10_fatal_preserves_state (clock : ℕ → ℤ) (fuel i : ℕ) (s : SnowFlake) (b : ℤ)
    (s2 : SnowFlake) (sl : List ℤ) (h : NextID clock fuel i s = .fatal b s2 sl) :
    s2.timestamp = s.timestamp ∧ s2.sequence = s.sequence ∧ s2 = s := by
  have he := NextID_fatal_state clock fuel i s b s2 sl h
  exact ⟨by rw [he], by rw [he], he⟩

/-- Claim C3, amended: any two successful `NextID` calls A then B of the
same generator instance — B issued after A, with any number of successful
calls in between (`ReachableFrom`) — return strictly increasing
identifiers, provided every sampled clock reading stays below
`EPOCH + 2^41` milliseconds (i.e. the 41-bit timestamp field has not
overflowed; `3776831255552000000` is `(EPOCH + 2^41) · 10^6` nanoseconds).
Without that bound the claim is false (see the counterexample): at
`now - EPOCH = 2^41` the shift of line 120 wraps around and the id jumps
to `-2^63`. -/
theorem C3_monotonic (clock : ℕ → ℤ) (fuelA fuelB iA iB : ℕ)
    (s sA sMid sB : SnowFlake) (idA idB : ℤ) (iA2 iB2 : ℕ) (slA slB : List ℤ)
    (hr : Reachable s)
    (hclk : ∀ j, clock j < 3776831255552000000)
    (hA : NextID clock fuelA iA s = .ok idA sA iA2 slA)
    (hmid : ReachableFrom clock sA sMid)
    (hB : NextID clock fuelB iB sMid = .ok idB sB iB2 slB) :
    idA < idB := by
  have hv := reachable_valid s hr
  have hvA := NextID_ok_valid clock fuelA iA s idA sA iA2 slA hv hA
  obtain ⟨hvM, hdcM, hwkM, hlex⟩ := reachableFrom_mono clock sA sMid hmid hvA
  obtain ⟨hv1, hv2, hv3, hv4, hv5, hv6, hv7, hv8⟩ := hv
  obtain ⟨hvA1, hvA2, hvA3, hvA4, hvA5, hvA6, hvA7, hvA8⟩ := hvA
  obtain ⟨hvM1, hvM2, hvM3, hvM4, hvM5, hvM6, hvM7, hvM8⟩ := hvM
  obtain ⟨hdcA, hwkA, hpackA, hqA0, hqA1, hleA, ⟨jA, hjA⟩, -⟩ :=
    NextID_ok_char clock fuelA iA s idA sA iA2 slA hv5 hv6 hA
  obtain ⟨hdcB, hwkB, hpackB, hqB0, hqB1, hleB, ⟨jB, hjB⟩, hincB⟩ :=
    NextID_ok_char clock fuelB iB sMid idB sB iB2 slB hvM5 hvM6 hB
  have htA : sA.timestamp < 3776831255552 := hjA ▸ GetNow_window clock jA (hclk jA)
  have htB : sB.timestamp < 3776831255552 := hjB ▸ GetNow_window clock jB (hclk jB)
  have htA0 : 0 ≤ sA.timestamp := le_trans hv7 hleA
  have htB0 : 0 ≤ sB.timestamp := by
    rcases hlex with hlex | ⟨hlex1, -⟩ <;> omega
  have hE : EPOCH = 1577808000000 := rfl
  rw [hpackA, hpackB, hdcM, hwkM, hdcA, hwkA]
  rw [pack_eq sA.timestamp s.datacenterId s.workerId sA.sequence (by omega) (by omega)
    hv1 hv2 hv3 hv4 hqA0 hqA1]
  rw [pack_eq sB.timestamp s.datacenterId s.workerId sB.sequence (by omega) (by omega)
    hv1 hv2 hv3 hv4 hqB0 hqB1]
  rcases eq_or_lt_of_le hleB with heq | hlt
  · have hseq := hincB heq.symm
    rcases hlex with hlex | ⟨hlex1, hlex2⟩ <;> omega
  · rcases hlex with hlex | ⟨hlex1, hlex2⟩ <;> omega

/-- Claim C3, counterexample to the unamended claim: from the freshly
constructed generator, two successive non-fatal calls whose clock samples
are `EPOCH + 2^41 - 1` and then `EPOCH + 2^41` milliseconds (the clock
moving strictly forward) return ids `2^63 - 2^22` and then `-2^63`: the
second id is smaller, because the 41-bit timestamp field overflows into
the sign bit. -/
theorem C3_monotonic_counterexample :
    NextID clockRollover 1 0 ⟨0, 0, 0, 0⟩ =
      .ok (pack 3776831255551 0 0 0) ⟨3776831255551, 0, 0, 0⟩ 1 [] ∧
    NextID clockRollover 1 1 ⟨3776831255551, 0, 0, 0⟩ =
      .ok (pack 3776831255552 0 0 0) ⟨3776831255552, 0, 0, 0⟩ 2 [] ∧
    pack 3776831255551 0 0 0 = 2 ^ 63 - 2 ^ 22 ∧
    pack 3776831255552 0 0 0 = -2 ^ 63 ∧
    pack 3776831255552 0 0 0 < pack 3776831255551 0 0 0 := by
  have hA : pack 3776831255551 0 0 0 = 2 ^ 63 - 2 ^ 22 := by
    rw [pack_eq 3776831255551 0 0 0 (by norm_num [EPOCH]) (by norm_num [EPOCH]) (by norm_num)
      (by norm_num) (by norm_num) (by norm_num) (by norm_num) (by norm_num)]
    norm_num [EPOCH]
  have hB : pack 3776831255552 0 0 0 = -2 ^ 63 := by
    unfold pack
    have h1 : sub64 3776831255552 EPOCH = 2199023255552 := by decide
    have h2 : shl64 2199023255552 SHIFT_TIMESTAMP = -9223372036854775808 := by decide
    have h3 : shl64 0 SHIFT_DATACENTER = 0 := by decide
    have h4 : shl64 0 SHIFT_WORKER = 0 := by decide
    rw [h1, h2, h3, h4, int_lor_zero, int_lor_zero, int_lor_zero]
    norm_num
  refine ⟨rfl, rfl, hA, hB, ?_⟩
  rw [hA, hB]
  norm_num

theorem C3_monotonic_witness :
    NextID (fun _ => 1000000) 1 0 ⟨0, 0, 0, 0⟩ = .ok (pack 1 0 0 0) ⟨1, 0, 0, 0⟩ 1 [] ∧
    NextID (fun _ => 1000000) 1 1 ⟨1, 0, 0, 0⟩ = .ok (pack 1 0 0 1) ⟨1, 0, 0, 1⟩ 2 [] ∧
    NextID (fun _ => 1000000) 1 2 ⟨1, 0, 0, 1⟩ = .ok (pack 1 0 0 2) ⟨1, 0, 0, 2⟩ 3 [] ∧
    pack 1 0 0 0 < pack 1 0 0 2 :=
  ⟨rfl, rfl, rfl,
    C3_monotonic (fun _ => 1000000) 1 1 0 2 ⟨0, 0, 0, 0⟩ ⟨1, 0, 0, 0⟩ ⟨1, 0, 0, 1⟩
      ⟨1, 0, 0, 2⟩ (pack 1 0 0 0) (pack 1 0 0 2) 1 3 [] []
      (Reachable.init 0 0 ⟨0, 0, 0, 0⟩ rfl)
      (fun _ => by norm_num) rfl
      (ReachableFrom.step 1 1 (pack 1 0 0 1) ⟨1, 0, 0, 0⟩ ⟨1, 0, 0, 0⟩ ⟨1, 0, 0, 1⟩ 2 []
        (ReachableFrom.refl ⟨1, 0, 0, 0⟩) rfl)
      rfl⟩

theorem C10_fatal_preserves_state_witness :
    NextID (fun _ => (0 : ℤ)) 1 0 ⟨10, 0, 0, 0⟩ = .fatal 10 ⟨10, 0, 0, 0⟩ [] ∧
    ((⟨10, 0, 0, 0⟩ : SnowFlake).timestamp = (⟨10, 0, 0, 0⟩ : SnowFlake).timestamp ∧
      (⟨10, 0, 0, 0⟩ : SnowFlake).sequence = (⟨10, 0, 0, 0⟩ : SnowFlake).sequence ∧
      (⟨10, 0, 0, 0⟩ : SnowFlake) = ⟨10, 0, 0, 0⟩) :=
  ⟨rfl, C10_fatal_preserves_state (fun _ => 0) 1 0 ⟨10, 0, 0, 0⟩ 10 ⟨10, 0, 0, 0⟩ [] rfl⟩

end Snowflake
